import Mathlib

/-!
Verification of the persistent_file_queue engine (`src/persistent_queue.cpp`).

The engine is embedded shallowly: the backing file is a flat byte memory
`Nat → Nat` (each cell holding a byte value `< 256`), matching the source's
`GetBlockPtr` arithmetic which addresses the file by absolute offset
(`offset / block_size_`, `offset % block_size_`) and silently assumes the
independently mapped blocks form one contiguous address space — exactly the
flat-file view.  Machine integers (`size_t`, `uint64_t`) are modelled as `Nat`;
the one place the source truncates (`static_cast<uint32_t>(data.size())`) is
modelled by an explicit `% 2^32`.  Errors thrown with `throw` are modelled by
`Except`/result constructors; `QueueFull` is the `false` return of `Enqueue`,
as in the source.
-/

namespace PFQ

/-- Byte memory: the backing file as a map from absolute offset to byte. -/
def Mem : Type := Nat → Nat

/-- `CalculateChecksum` from the source: running `uint8` sum of the bytes.
Each step truncates to a byte, as the `static_cast<uint8_t>` does. -/
def CalculateChecksum (p : List Nat) : Nat :=
  p.foldl (fun s b => (s + b % 256) % 256) 0

/-- Read `len` bytes starting at `pos` (the `memcpy` out of the mapping). -/
def readBytes (f : Mem) (pos len : Nat) : List Nat :=
  (List.range len).map (fun i => f (pos + i) % 256)

/-- Write the bytes of `p` at `pos` (the `memcpy` into the mapping):
cell `pos + i` receives `p[i]`, other cells are untouched. -/
def writeBytes (f : Mem) (pos : Nat) (p : List Nat) : Mem :=
  fun q => if pos ≤ q ∧ q < pos + p.length then p.getD (q - pos) 0 % 256 else f q

/-- Write a single byte at `pos` (the `*write_pos = checksum` store). -/
def writeByte (f : Mem) (pos b : Nat) : Mem :=
  fun q => if q = pos then b % 256 else f q

/-- Little-endian bytes of a `uint32` value (after the cast's truncation). -/
def u32le (v : Nat) : List Nat :=
  [v % 256, v / 256 % 256, v / 65536 % 256, v / 16777216 % 256]

/-- `memcpy` of a `uint32` into the mapping, native little-endian order. -/
def writeU32 (f : Mem) (pos v : Nat) : Mem :=
  writeBytes f pos (u32le v)

/-- `memcpy` of a `uint32` out of the mapping. -/
def readU32 (f : Mem) (pos : Nat) : Nat :=
  f pos % 256 + f (pos + 1) % 256 * 256 + f (pos + 2) % 256 * 65536 +
    f (pos + 3) % 256 * 16777216

/-- Little-endian bytes of a `uint64` field. -/
def u64le (v : Nat) : List Nat :=
  [v % 256, v / 2 ^ 8 % 256, v / 2 ^ 16 % 256, v / 2 ^ 24 % 256,
   v / 2 ^ 32 % 256, v / 2 ^ 40 % 256, v / 2 ^ 48 % 256, v / 2 ^ 56 % 256]

/-- The `QueueHeader` struct, fields in the source's declaration order:
`head, tail, capacity, size, count, block_size, max_size, write_pos,
read_pos, magic, version, checksum`. -/
structure QueueHeader where
  head : Nat
  tail : Nat
  capacity : Nat
  size : Nat
  count : Nat
  block_size : Nat
  max_size : Nat
  write_pos : Nat
  read_pos : Nat
  magic : Nat
  version : Nat
  checksum : Nat
deriving DecidableEq

/-- The bytes of the eleven `uint64_t` header fields, laid out in the
struct's declaration order (native little-endian, no internal padding:
all fields are 8-byte aligned). -/
def headerFieldBytes (h : QueueHeader) : List Nat :=
  u64le h.head ++ (u64le h.tail ++ (u64le h.capacity ++ (u64le h.size ++
  (u64le h.count ++ (u64le h.block_size ++ (u64le h.max_size ++
  (u64le h.write_pos ++ (u64le h.read_pos ++ (u64le h.magic ++
  u64le h.version)))))))))

/-- The on-disk header bytes: the eleven `uint64_t` fields followed by the
one-byte checksum at offset 88.  (The struct's trailing alignment padding
carries no data and is not modelled.) -/
def headerBytes (h : QueueHeader) : List Nat :=
  headerFieldBytes h ++ [h.checksum % 256]

/-- The `uint64` value formed by the first eight bytes of a byte list,
native little-endian. -/
def le64head : List Nat → Nat
  | b0 :: b1 :: b2 :: b3 :: b4 :: b5 :: b6 :: b7 :: _ =>
    b0 + b1 * 2 ^ 8 + b2 * 2 ^ 16 + b3 * 2 ^ 24 + b4 * 2 ^ 32 + b5 * 2 ^ 40 +
      b6 * 2 ^ 48 + b7 * 2 ^ 56
  | _ => 0

/-- Read a `uint64` little-endian from a byte list at offset `off`. -/
def readU64at (l : List Nat) (off : Nat) : Nat := le64head (l.drop off)

def MAGIC_NUMBER : Nat := 0xDEADBEEFCAFEBABE

def CURRENT_VERSION : Nat := 1

/-- Engine state: the in-memory header view, the flat backing file, and the
`block_size_` member the engine was constructed with. -/
structure QState where
  header : QueueHeader
  file : Mem
  bsMember : Nat

/-- `CanRecycleSpace` from the source, verbatim branch structure. -/
def CanRecycleSpace (s : QState) (required : Nat) : Bool :=
  if s.header.read_pos > s.bsMember then true
  else if s.header.write_pos < s.header.read_pos then
    decide (s.header.read_pos - s.header.write_pos ≥ required)
  else false

/-- `ExpandFile`: double the capacity, capped at `max_size`. -/
def ExpandFile (s : QState) : QState :=
  { s with header := { s.header with
      capacity := min (s.header.capacity * 2) s.header.max_size } }

/-- `UpdateReadPosition`: reset `read_pos` to the start of the record area. -/
def UpdateReadPosition (s : QState) : QState :=
  { s with header := { s.header with read_pos := s.bsMember } }

/-- `Enqueue` from the source.  `total = 4 + len + 1`; if
`size + total > capacity` either expand (capacity below `max_size`),
reclaim (`CanRecycleSpace`), or fail with `false` (`QueueFull`).  Then the
length prefix is written as a `uint32` (truncating cast), the payload bytes
and the payload checksum follow, and the header advances
`write_pos = (write_pos + total) % capacity`, `size += total`, `count += 1`. -/
def Enqueue (s : QState) (data : List Nat) : Bool × QState :=
  let total := 4 + data.length + 1
  let step : Option QState :=
    if s.header.size + total > s.header.capacity then
      if s.header.capacity ≥ s.header.max_size then
        if CanRecycleSpace s total then some (UpdateReadPosition s)
        else none
      else some (ExpandFile s)
    else some s
  match step with
  | none => (false, s)
  | some s1 =>
    let wp := s1.header.write_pos
    let f1 := writeU32 s1.file wp data.length
    let f2 := writeBytes f1 (wp + 4) data
    let f3 := writeByte f2 (wp + 4 + data.length) (CalculateChecksum data)
    (true, { s1 with
      file := f3,
      header := { s1.header with
        write_pos := (wp + total) % s1.header.capacity,
        size := s1.header.size + total,
        count := s1.header.count + 1 } })

/-- Result of a `Dequeue` call: `empty` is `std::nullopt`, `corrupt` is the
thrown checksum-mismatch exception, `ok` carries the payload. -/
inductive DQResult where
  | empty : DQResult
  | corrupt : DQResult
  | ok : List Nat → DQResult
deriving DecidableEq

/-- `Dequeue` from the source.  Returns the result together with the engine
state after the call (unchanged on `empty` and on the thrown `corrupt`,
since the source throws before mutating the header). -/
def Dequeue (s : QState) : DQResult × QState :=
  if s.header.count = 0 then (.empty, s)
  else
    let len := readU32 s.file s.header.read_pos
    let total := 4 + len + 1
    let data := readBytes s.file (s.header.read_pos + 4) len
    let stored := s.file (s.header.read_pos + 4 + len) % 256
    if stored = CalculateChecksum data then
      (.ok data, { s with header := { s.header with
        read_pos := (s.header.read_pos + total) % s.header.capacity,
        size := s.header.size - total,
        count := s.header.count - 1 } })
    else (.corrupt, s)

/-- `Size()`: the live record count. -/
def SizeQ (s : QState) : Nat := s.header.count

/-- `TotalBytes()`: the live byte count. -/
def TotalBytesQ (s : QState) : Nat := s.header.size

/-- `Empty()`: whether the count is zero. -/
def EmptyQ (s : QState) : Bool := s.header.count == 0

/-- `Initialize`/`InitializeNewFile` from the source: capacity is
`max(4, 2^30 / block_size) * block_size`, every position starts at
`block_size`, `max_size` is 1 GiB, and the header checksum is the byte sum
of the preceding header bytes (checksum slot and trailing padding are
zero-filled at that point, so only the eleven field values contribute). -/
def InitQueue (bs : Nat) : QState :=
  let cap := max 4 (2 ^ 30 / bs) * bs
  let h0 : QueueHeader :=
    { head := bs, tail := bs, capacity := cap, size := 0, count := 0,
      block_size := bs, max_size := 2 ^ 30, write_pos := bs, read_pos := bs,
      magic := MAGIC_NUMBER, version := CURRENT_VERSION, checksum := 0 }
  { header := { h0 with checksum := CalculateChecksum (headerFieldBytes h0) },
    file := fun _ => 0,
    bsMember := bs }

/-- The errors thrown during open/recovery, one per `throw` site. -/
inductive QErr where
  | badMagic | badVersion | badBlockSize | badSize | badPositions
  | badRecordSize | badRecordChecksum
deriving DecidableEq

deriving instance DecidableEq for Except

/-- One loop body of `VerifyDataIntegrity`, iterated structurally on a fuel
bound.  Each record consumes `total = 4 + len + 1 ≥ 5` of the `remaining`
bytes, so `fuel = remaining` iterations always suffice; the zero-fuel case
with `remaining ≠ 0` is unreachable when called that way (the invariant
`remaining ≤ fuel` is kept below). -/
def verifyGo (f : Mem) (cap : Nat) : Nat → Nat → Nat → Except QErr Unit
  | _, _, 0 => .ok ()
  | 0, _, _ + 1 => .error .badRecordSize
  | fuel + 1, pos, r + 1 =>
    let remaining := r + 1
    let len := readU32 f pos
    let total := 4 + len + 1
    if total > remaining then .error .badRecordSize
    else if f (pos + 4 + len) % 256 =
        CalculateChecksum (readBytes f (pos + 4) len) then
      verifyGo f cap fuel ((pos + total) % cap) (remaining - total)
    else .error .badRecordChecksum

/-- `VerifyDataIntegrity` from the source: walk the live region from
`read_pos` for `size` bytes; per record check the frame fits in the
remaining bytes and the stored checksum matches the payload bytes, then
advance `(pos + total) % cap`. -/
def VerifyDataIntegrity (f : Mem) (cap pos remaining : Nat) :
    Except QErr Unit :=
  verifyGo f cap remaining pos remaining

/-- `RecoverFromFile` from the source: the header checks in source order,
then the data-integrity walk. -/
def RecoverFromFile (s : QState) : Except QErr Unit :=
  if s.header.magic ≠ MAGIC_NUMBER then .error .badMagic
  else if s.header.version ≠ CURRENT_VERSION then .error .badVersion
  else if s.header.block_size ≠ s.bsMember then .error .badBlockSize
  else if s.header.size > s.header.capacity then .error .badSize
  else if s.header.read_pos ≥ s.header.capacity ∨
          s.header.write_pos ≥ s.header.capacity then .error .badPositions
  else VerifyDataIntegrity s.file s.header.capacity s.header.read_pos
        s.header.size

/-! ### Basic facts about the byte-memory operations -/

theorem CalculateChecksum_lt_aux (p : List Nat) (a : Nat) (ha : a < 256) :
    p.foldl (fun s b => (s + b % 256) % 256) a < 256 := by
  induction p generalizing a with
  | nil => simpa using ha
  | cons b p ih => exact ih _ (Nat.mod_lt _ (by norm_num))

theorem CalculateChecksum_lt (p : List Nat) : CalculateChecksum p < 256 :=
  CalculateChecksum_lt_aux p 0 (by norm_num)

theorem readBytes_length (f : Mem) (pos len : Nat) :
    (readBytes f pos len).length = len := by
  simp [readBytes]

theorem readBytes_congr {f g : Mem} {pos len : Nat}
    (h : ∀ i, i < len → f (pos + i) = g (pos + i)) :
    readBytes f pos len = readBytes g pos len := by
  simp only [readBytes]
  refine List.map_congr_left ?_
  intro i hi
  rw [h i (List.mem_range.mp hi)]

theorem writeBytes_out {f : Mem} {pos : Nat} {p : List Nat} {q : Nat}
    (h : q < pos ∨ pos + p.length ≤ q) : writeBytes f pos p q = f q := by
  simp only [writeBytes]
  rw [if_neg]
  omega

theorem writeByte_out {f : Mem} {pos b q : Nat} (h : q ≠ pos) :
    writeByte f pos b q = f q := by
  simp [writeByte, h]

theorem writeBytes_in {f : Mem} {pos : Nat} {p : List Nat} {i : Nat}
    (h : i < p.length) : writeBytes f pos p (pos + i) = p.getD i 0 % 256 := by
  simp only [writeBytes]
  rw [if_pos (by omega)]
  rw [Nat.add_sub_cancel_left]

theorem getD_eq_getElem {p : List Nat} {i : Nat} (h : i < p.length) :
    p.getD i 0 = p[i] := by
  simp [List.getD_eq_getElem?_getD, List.getElem?_eq_getElem h]

theorem readBytes_writeBytes (f : Mem) (pos : Nat) (p : List Nat)
    (hb : ∀ b ∈ p, b < 256) :
    readBytes (writeBytes f pos p) pos p.length = p := by
  apply List.ext_getElem
  · simp [readBytes]
  · intro i hi hip
    simp only [readBytes, List.getElem_map, List.getElem_range]
    rw [writeBytes_in (by simpa [readBytes] using hi)]
    have hi' : i < p.length := by simpa [readBytes] using hi
    rw [getD_eq_getElem hi']
    have : p[i] < 256 := hb _ (p.getElem_mem hi')
    omega

theorem readU32_lt (f : Mem) (pos : Nat) : readU32 f pos < 2 ^ 32 := by
  simp only [readU32]
  have h0 := @Nat.mod_lt (f pos) 256 (by norm_num)
  have h1 := @Nat.mod_lt (f (pos + 1)) 256 (by norm_num)
  have h2 := @Nat.mod_lt (f (pos + 2)) 256 (by norm_num)
  have h3 := @Nat.mod_lt (f (pos + 3)) 256 (by norm_num)
  omega

theorem readU32_writeU32 (f : Mem) (pos v : Nat) :
    readU32 (writeU32 f pos v) pos = v % 2 ^ 32 := by
  have b0 : writeU32 f pos v pos = v % 256 := by
    have := @writeBytes_in f pos (u32le v) 0
      (by simp [u32le])
    simpa [writeU32, u32le, Nat.mod_mod_of_dvd _ (dvd_refl 256)] using this
  have b1 : writeU32 f pos v (pos + 1) = v / 256 % 256 := by
    have := @writeBytes_in f pos (u32le v) 1
      (by simp [u32le])
    simpa [writeU32, u32le, Nat.mod_mod_of_dvd _ (dvd_refl 256)] using this
  have b2 : writeU32 f pos v (pos + 2) = v / 65536 % 256 := by
    have := @writeBytes_in f pos (u32le v) 2
      (by simp [u32le])
    simpa [writeU32, u32le, Nat.mod_mod_of_dvd _ (dvd_refl 256)] using this
  have b3 : writeU32 f pos v (pos + 3) = v / 16777216 % 256 := by
    have := @writeBytes_in f pos (u32le v) 3
      (by simp [u32le])
    simpa [writeU32, u32le, Nat.mod_mod_of_dvd _ (dvd_refl 256)] using this
  simp only [readU32, b0, b1, b2, b3, Nat.mod_mod_of_dvd _ (dvd_refl 256)]
  omega

theorem writeU32_out {f : Mem} {pos v q : Nat}
    (h : q < pos ∨ pos + 4 ≤ q) : writeU32 f pos v q = f q := by
  unfold writeU32
  exact writeBytes_out (by simpa [u32le] using h)

/-! ### The flat-layout invariant and the FIFO refinement -/

/-- Bytes occupied by the frames of a list of pending payloads. -/
def sumFrames (q : List (List Nat)) : Nat :=
  (q.map (fun p => 4 + p.length + 1)).sum

/-- The frames of the payloads `q` are laid out contiguously at `pos`:
for each record, the `uint32` length prefix, the payload bytes, and the
one-byte payload checksum. -/
def layout (f : Mem) : Nat → List (List Nat) → Prop
  | _, [] => True
  | pos, p :: rest =>
    readU32 f pos = p.length ∧
    readBytes f (pos + 4) p.length = p ∧
    f (pos + 4 + p.length) % 256 = CalculateChecksum p ∧
    layout f (pos + (4 + p.length + 1)) rest

/-- State invariant for flat (non-wrapping) runs: the pending payloads `q`
occupy `[read_pos, write_pos)` contiguously, the header accounting matches,
and every pending payload is a byte list shorter than `2^32`. -/
def Inv (s : QState) (q : List (List Nat)) : Prop :=
  s.header.read_pos + s.header.size = s.header.write_pos ∧
  s.header.write_pos < s.header.capacity ∧
  s.header.count = q.length ∧
  s.header.size = sumFrames q ∧
  layout s.file s.header.read_pos q ∧
  ∀ p ∈ q, p.length < 2 ^ 32 ∧ ∀ b ∈ p, b < 256

/-- A client call on the engine. -/
inductive Op where
  | enq : List Nat → Op
  | deq : Op

/-- Run a sequence of calls, recording each `Dequeue` result. -/
def run : QState → List Op → List DQResult × QState
  | s, [] => ([], s)
  | s, Op.enq p :: ops => run (Enqueue s p).2 ops
  | s, Op.deq :: ops =>
    let d := Dequeue s
    let r := run d.2 ops
    (d.1 :: r.1, r.2)

/-- The payloads returned by successful dequeues, in order. -/
def okOuts : List DQResult → List (List Nat)
  | [] => []
  | DQResult.ok p :: rs => p :: okOuts rs
  | _ :: rs => okOuts rs

/-- Reference FIFO queue: returns the payloads its dequeues yield and the
final pending list. -/
def absStep : List (List Nat) → List Op → List (List Nat) × List (List Nat)
  | q, [] => ([], q)
  | q, Op.enq p :: ops => absStep (q ++ [p]) ops
  | q, Op.deq :: ops =>
    match q with
    | [] => absStep [] ops
    | p :: rest =>
      let r := absStep rest ops
      (p :: r.1, r.2)

/-- Side conditions making a run flat: every payload is shorter than `2^32`
with byte values `< 256`, and every enqueue fits without triggering the
space branch (`size + frame ≤ capacity`) or wrapping the write pointer
(`write_pos + frame < capacity`). -/
def flatOk : QState → List Op → Bool
  | _, [] => true
  | s, Op.enq p :: ops =>
    decide (p.length < 2 ^ 32) && p.all (fun b => decide (b < 256)) &&
    decide (s.header.size + (4 + p.length + 1) ≤ s.header.capacity) &&
    decide (s.header.write_pos + (4 + p.length + 1) < s.header.capacity) &&
    flatOk (Enqueue s p).2 ops
  | s, Op.deq :: ops => flatOk (Dequeue s).2 ops

theorem sumFrames_append (q r : List (List Nat)) :
    sumFrames (q ++ r) = sumFrames q + sumFrames r := by
  simp [sumFrames]

theorem layout_congr {f g : Mem} (q : List (List Nat)) (pos : Nat)
    (h : ∀ i, pos ≤ i → i < pos + sumFrames q → f i = g i)
    (hl : layout f pos q) : layout g pos q := by
  induction q generalizing pos with
  | nil => trivial
  | cons p rest ih =>
    obtain ⟨h1, h2, h3, h4⟩ := hl
    have hfr : sumFrames (p :: rest) = (4 + p.length + 1) + sumFrames rest := by
      simp [sumFrames]
    have hin : ∀ i, pos ≤ i → i < pos + (4 + p.length + 1) → f i = g i := by
      intro i hi1 hi2
      exact h i hi1 (by omega)
    refine ⟨?_, ?_, ?_, ?_⟩
    · rw [← h1]
      simp only [readU32]
      rw [hin pos (le_refl _) (by omega), hin (pos + 1) (by omega) (by omega),
        hin (pos + 2) (by omega) (by omega), hin (pos + 3) (by omega) (by omega)]
    · have hcg := @readBytes_congr f g (pos + 4) p.length
        (fun i hi => hin (pos + 4 + i) (by omega) (by omega))
      rw [← hcg]
      exact h2
    · rw [← h3, hin (pos + 4 + p.length) (by omega) (by omega)]
    · exact ih (pos + (4 + p.length + 1))
        (fun i hi1 hi2 => h i (by omega) (by omega)) h4

theorem layout_append {f : Mem} {q r : List (List Nat)} {pos : Nat}
    (hq : layout f pos q) (hr : layout f (pos + sumFrames q) r) :
    layout f pos (q ++ r) := by
  induction q generalizing pos with
  | nil => simpa [sumFrames] using hr
  | cons p rest ih =>
    obtain ⟨h1, h2, h3, h4⟩ := hq
    have hs : sumFrames (p :: rest) = (4 + p.length + 1) + sumFrames rest := by
      simp [sumFrames]
    have heq : pos + (4 + p.length + 1) + sumFrames rest = pos + sumFrames (p :: rest) := by
      omega
    exact ⟨h1, h2, h3, ih h4 (by rw [heq]; exact hr)⟩

theorem readU32_congr {f g : Mem} {pos : Nat} (h0 : f pos = g pos)
    (h1 : f (pos + 1) = g (pos + 1)) (h2 : f (pos + 2) = g (pos + 2))
    (h3 : f (pos + 3) = g (pos + 3)) : readU32 f pos = readU32 g pos := by
  simp only [readU32, h0, h1, h2, h3]

theorem sumFrames_cons (p : List Nat) (rest : List (List Nat)) :
    sumFrames (p :: rest) = (4 + p.length + 1) + sumFrames rest := by
  simp [sumFrames]

/-- On a state satisfying the invariant with a nonempty pending list,
`Dequeue` returns the head payload and re-establishes the invariant. -/
theorem Dequeue_cons {s : QState} {p : List Nat} {rest : List (List Nat)}
    (h : Inv s (p :: rest)) :
    (Dequeue s).1 = .ok p ∧ Inv (Dequeue s).2 rest := by
  obtain ⟨hflat, hwcap, hcount, hsize, hlay, hgood⟩ := h
  obtain ⟨hl1, hl2, hl3, hl4⟩ := hlay
  have hne : s.header.count ≠ 0 := by
    rw [hcount]; simp
  have hfr := sumFrames_cons p rest
  have hmod : (s.header.read_pos + (4 + p.length + 1)) % s.header.capacity =
      s.header.read_pos + (4 + p.length + 1) := by
    apply Nat.mod_eq_of_lt
    omega
  have hD : Dequeue s = (.ok p, { s with header := { s.header with
      read_pos := (s.header.read_pos + (4 + p.length + 1)) % s.header.capacity,
      size := s.header.size - (4 + p.length + 1),
      count := s.header.count - 1 } }) := by
    simp only [Dequeue, if_neg hne, hl1, hl2, hl3]
    rw [if_pos trivial]
  rw [hD]
  refine ⟨rfl, ?_, ?_, ?_, ?_, ?_, ?_⟩
  · show (s.header.read_pos + (4 + p.length + 1)) % s.header.capacity +
      (s.header.size - (4 + p.length + 1)) = s.header.write_pos
    rw [hmod]
    omega
  · exact hwcap
  · show s.header.count - 1 = rest.length
    rw [hcount]
    simp
  · show s.header.size - (4 + p.length + 1) = sumFrames rest
    omega
  · show layout s.file
      ((s.header.read_pos + (4 + p.length + 1)) % s.header.capacity) rest
    rw [hmod]
    exact hl4
  · exact fun p' hp' => hgood p' (List.mem_cons_of_mem _ hp')

/-- On a state satisfying the invariant with an empty pending list,
`Dequeue` returns `empty` and leaves the state unchanged. -/
theorem Dequeue_nil {s : QState} (h : Inv s []) :
    Dequeue s = (.empty, s) := by
  obtain ⟨-, -, hcount, -, -, -⟩ := h
  simp only [Dequeue, if_pos (by simpa using hcount)]

/-- An enqueue that fits without triggering the space branch and without
wrapping the write pointer succeeds and appends the payload. -/
theorem Enqueue_flat {s : QState} {q : List (List Nat)} {p : List Nat}
    (h : Inv s q) (hlen : p.length < 2 ^ 32) (hb : ∀ b ∈ p, b < 256)
    (hfit : s.header.size + (4 + p.length + 1) ≤ s.header.capacity)
    (hwr : s.header.write_pos + (4 + p.length + 1) < s.header.capacity) :
    (Enqueue s p).1 = true ∧ Inv (Enqueue s p).2 (q ++ [p]) := by
  obtain ⟨hflat, hwcap, hcount, hsize, hlay, hgood⟩ := h
  have hbr : ¬ (s.header.size + (4 + p.length + 1) > s.header.capacity) := by
    omega
  have hmod : (s.header.write_pos + (4 + p.length + 1)) % s.header.capacity =
      s.header.write_pos + (4 + p.length + 1) :=
    Nat.mod_eq_of_lt hwr
  set wp := s.header.write_pos with hwpdef
  set f1 := writeU32 s.file wp p.length with hf1
  set f2 := writeBytes f1 (wp + 4) p with hf2
  set f3 := writeByte f2 (wp + 4 + p.length) (CalculateChecksum p) with hf3
  have hpre : ∀ i, i < wp → f3 i = s.file i := by
    intro i hi
    rw [hf3, writeByte_out (by omega), hf2, writeBytes_out (by omega), hf1,
      writeU32_out (by omega)]
  have hlen32 : readU32 f3 wp = p.length := by
    have e0 : f3 wp = f1 wp := by
      rw [hf3, writeByte_out (by omega), hf2, writeBytes_out (by omega)]
    have e1 : f3 (wp + 1) = f1 (wp + 1) := by
      rw [hf3, writeByte_out (by omega), hf2, writeBytes_out (by omega)]
    have e2 : f3 (wp + 2) = f1 (wp + 2) := by
      rw [hf3, writeByte_out (by omega), hf2, writeBytes_out (by omega)]
    have e3 : f3 (wp + 3) = f1 (wp + 3) := by
      rw [hf3, writeByte_out (by omega), hf2, writeBytes_out (by omega)]
    rw [readU32_congr e0 e1 e2 e3, hf1, readU32_writeU32,
      Nat.mod_eq_of_lt hlen]
  have hdata : readBytes f3 (wp + 4) p.length = p := by
    have : readBytes f3 (wp + 4) p.length = readBytes f2 (wp + 4) p.length := by
      apply readBytes_congr
      intro i hi
      rw [hf3, writeByte_out (by omega)]
    rw [this, hf2, readBytes_writeBytes _ _ _ hb]
  have hck : f3 (wp + 4 + p.length) % 256 = CalculateChecksum p := by
    have : f3 (wp + 4 + p.length) = CalculateChecksum p % 256 := by
      rw [hf3]
      simp [writeByte]
    rw [this, Nat.mod_mod_of_dvd _ (dvd_refl 256),
      Nat.mod_eq_of_lt (CalculateChecksum_lt p)]
  have hresult : Enqueue s p = (true, { s with
      file := f3,
      header := { s.header with
        write_pos := (wp + (4 + p.length + 1)) % s.header.capacity,
        size := s.header.size + (4 + p.length + 1),
        count := s.header.count + 1 } }) := by
    simp only [Enqueue, if_neg hbr]
  rw [hresult]
  refine ⟨rfl, ?_, ?_, ?_, ?_, ?_, ?_⟩
  · simp only [hmod]
    omega
  · simp only [hmod]
    omega
  · simp [hcount]
  · simp only [sumFrames_append, hsize]
    simp [sumFrames]
    try omega
  · have hq : layout f3 s.header.read_pos q := by
      apply layout_congr q s.header.read_pos _ hlay
      intro i hi1 hi2
      exact (hpre i (by omega)).symm
    have hwp_eq : s.header.read_pos + sumFrames q = wp := by
      omega
    have hp1 : layout f3 wp [p] := by
      refine ⟨hlen32, hdata, hck, trivial⟩
    apply layout_append hq
    rw [hwp_eq]
    exact hp1
  · intro p' hp'
    rcases List.mem_append.mp hp' with hmem | hmem
    · exact hgood p' hmem
    · rcases List.mem_singleton.mp hmem with rfl
      exact ⟨hlen, hb⟩

/-- Flat runs refine the abstract FIFO queue: successful dequeues return
exactly the abstract queue's outputs, and the invariant is preserved. -/
theorem run_refines {ops : List Op} {s : QState} {q : List (List Nat)}
    (hinv : Inv s q) (hok : flatOk s ops = true) :
    okOuts (run s ops).1 = (absStep q ops).1 ∧
      Inv (run s ops).2 (absStep q ops).2 := by
  induction ops generalizing s q with
  | nil => exact ⟨rfl, hinv⟩
  | cons op ops ih =>
    cases op with
    | enq p =>
      simp only [flatOk, Bool.and_eq_true, decide_eq_true_eq, List.all_eq_true] at hok
      obtain ⟨⟨⟨⟨hlen, hb⟩, hfit⟩, hwr⟩, hrest⟩ := hok
      obtain ⟨-, hinv'⟩ := Enqueue_flat hinv hlen
        (fun b hb' => by simpa using hb b hb') hfit hwr
      simp only [run, absStep]
      exact ih hinv' hrest
    | deq =>
      cases q with
      | nil =>
        have hd := Dequeue_nil hinv
        have hs1 : (Dequeue s).1 = .empty := by rw [hd]
        have hs2 : (Dequeue s).2 = s := by rw [hd]
        have hok' : flatOk s ops = true := by
          have he : flatOk s (Op.deq :: ops) = flatOk (Dequeue s).2 ops := rfl
          rw [he, hs2] at hok
          exact hok
        obtain ⟨ho, hi⟩ := ih hinv hok'
        constructor
        · show okOuts ((Dequeue s).1 :: (run (Dequeue s).2 ops).1) =
            (absStep [] ops).1
          rw [hs1, hs2]
          exact ho
        · show Inv (run (Dequeue s).2 ops).2 (absStep [] ops).2
          rw [hs2]
          exact hi
      | cons p rest =>
        obtain ⟨hd1, hinv'⟩ := Dequeue_cons hinv
        have hok' : flatOk (Dequeue s).2 ops = true := hok
        obtain ⟨ho, hi⟩ := ih hinv' hok'
        constructor
        · show okOuts ((Dequeue s).1 :: (run (Dequeue s).2 ops).1) =
            p :: (absStep rest ops).1
          rw [hd1]
          show p :: okOuts (run (Dequeue s).2 ops).1 = p :: (absStep rest ops).1
          rw [ho]
        · exact hi

/-- A freshly initialized queue satisfies the invariant with no pending
payloads. -/
theorem Inv_init {bs : Nat} (hbs : 0 < bs) : Inv (InitQueue bs) [] := by
  have hcap : (InitQueue bs).header.capacity = max 4 (2 ^ 30 / bs) * bs := rfl
  have hrp : (InitQueue bs).header.read_pos = bs := rfl
  have hwp : (InitQueue bs).header.write_pos = bs := rfl
  have hsz : (InitQueue bs).header.size = 0 := rfl
  have hct : (InitQueue bs).header.count = 0 := rfl
  have h4 : 4 * bs ≤ max 4 (2 ^ 30 / bs) * bs :=
    Nat.mul_le_mul_right bs (le_max_left _ _)
  refine ⟨?_, ?_, ?_, ?_, trivial, by simp⟩
  · rw [hrp, hsz, hwp]
    omega
  · rw [hwp, hcap]
    omega
  · rw [hct]
    rfl
  · rw [hsz]
    rfl

/-- The file after the three record writes of a successful enqueue. -/
def enqWrites (f : Mem) (wp : Nat) (p : List Nat) : Mem :=
  writeByte (writeBytes (writeU32 f wp p.length) (wp + 4) p)
    (wp + 4 + p.length) (CalculateChecksum p)

theorem enqWrites_def (f : Mem) (wp : Nat) (p : List Nat) :
    enqWrites f wp p =
      writeByte (writeBytes (writeU32 f wp p.length) (wp + 4) p)
        (wp + 4 + p.length) (CalculateChecksum p) := rfl

/-- `Enqueue` when the record fits: no branch is taken, the record is
written at `write_pos` and the header advances. -/
theorem Enqueue_nobranch {s : QState} {p : List Nat}
    (h : s.header.size + (4 + p.length + 1) ≤ s.header.capacity) :
    Enqueue s p = (true, { s with
      file := enqWrites s.file s.header.write_pos p,
      header := { s.header with
        write_pos := (s.header.write_pos + (4 + p.length + 1)) %
          s.header.capacity,
        size := s.header.size + (4 + p.length + 1),
        count := s.header.count + 1 } }) := by
  simp only [Enqueue, if_neg (by omega :
    ¬ s.header.size + (4 + p.length + 1) > s.header.capacity)]
  rfl

/-- `Enqueue` on the expansion path: `capacity` below `max_size`, the file
grows to `min (capacity * 2) max_size` and the record is then written
unconditionally. -/
theorem Enqueue_expand {s : QState} {p : List Nat}
    (h1 : s.header.size + (4 + p.length + 1) > s.header.capacity)
    (h2 : ¬ s.header.capacity ≥ s.header.max_size) :
    Enqueue s p = (true, { s with
      file := enqWrites s.file s.header.write_pos p,
      header := { s.header with
        capacity := min (s.header.capacity * 2) s.header.max_size,
        write_pos := (s.header.write_pos + (4 + p.length + 1)) %
          min (s.header.capacity * 2) s.header.max_size,
        size := s.header.size + (4 + p.length + 1),
        count := s.header.count + 1 } }) := by
  simp only [Enqueue, if_pos h1, if_neg h2, ExpandFile]
  rfl

/-- `Enqueue` on the reclamation path: at `max_size` with reclaimable
space, `read_pos` is reset to `block_size_` and the record is then written
unconditionally at the unchanged `write_pos`. -/
theorem Enqueue_recycle {s : QState} {p : List Nat}
    (h1 : s.header.size + (4 + p.length + 1) > s.header.capacity)
    (h2 : s.header.capacity ≥ s.header.max_size)
    (hcan : CanRecycleSpace s (4 + p.length + 1) = true) :
    Enqueue s p = (true, { s with
      file := enqWrites s.file s.header.write_pos p,
      header := { s.header with
        read_pos := s.bsMember,
        write_pos := (s.header.write_pos + (4 + p.length + 1)) %
          s.header.capacity,
        size := s.header.size + (4 + p.length + 1),
        count := s.header.count + 1 } }) := by
  simp only [Enqueue, if_pos h1, if_pos h2, hcan, if_pos rfl,
    UpdateReadPosition]
  rfl

/-- Special case of `Enqueue_recycle`: drained data exists at the front
(`read_pos > block_size_`), the source's first reclamation test. -/
theorem Enqueue_reclaim {s : QState} {p : List Nat}
    (h1 : s.header.size + (4 + p.length + 1) > s.header.capacity)
    (h2 : s.header.capacity ≥ s.header.max_size)
    (h3 : s.header.read_pos > s.bsMember) :
    Enqueue s p = (true, { s with
      file := enqWrites s.file s.header.write_pos p,
      header := { s.header with
        read_pos := s.bsMember,
        write_pos := (s.header.write_pos + (4 + p.length + 1)) %
          s.header.capacity,
        size := s.header.size + (4 + p.length + 1),
        count := s.header.count + 1 } }) :=
  Enqueue_recycle h1 h2 (by simp only [CanRecycleSpace, if_pos h3])

/-- `Enqueue` on the failure path: at `max_size` with no reclaimable
space, returns `false` and the state is untouched. -/
theorem Enqueue_full {s : QState} {p : List Nat}
    (h1 : s.header.size + (4 + p.length + 1) > s.header.capacity)
    (h2 : s.header.capacity ≥ s.header.max_size)
    (h3 : CanRecycleSpace s (4 + p.length + 1) = false) :
    Enqueue s p = (false, s) := by
  simp only [Enqueue, if_pos h1, if_pos h2, h3]
  rfl

/-- What every successful `Enqueue` does, whichever branch it took: the
frame is written at the old `write_pos` of the old file, `size` grows by
the frame, `count` by one, and `write_pos` advances by the frame modulo
the (possibly expanded) capacity — with no clamp. -/
theorem Enqueue_true_spec {s : QState} {p : List Nat}
    (h : (Enqueue s p).1 = true) :
    (Enqueue s p).2.file = enqWrites s.file s.header.write_pos p ∧
    (Enqueue s p).2.header.size = s.header.size + (4 + p.length + 1) ∧
    (Enqueue s p).2.header.count = s.header.count + 1 ∧
    (Enqueue s p).2.header.write_pos =
      (s.header.write_pos + (4 + p.length + 1)) %
        (Enqueue s p).2.header.capacity ∧
    (Enqueue s p).2.bsMember = s.bsMember := by
  by_cases h1 : s.header.size + (4 + p.length + 1) > s.header.capacity
  · by_cases h2 : s.header.capacity ≥ s.header.max_size
    · by_cases h3 : CanRecycleSpace s (4 + p.length + 1) = true
      · rw [Enqueue_recycle h1 h2 h3]
        exact ⟨rfl, rfl, rfl, rfl, rfl⟩
      · rw [Enqueue_full h1 h2 (by simpa using h3)] at h
        exact absurd h (by simp)
    · rw [Enqueue_expand h1 h2]
      exact ⟨rfl, rfl, rfl, rfl, rfl⟩
  · rw [Enqueue_nobranch (by omega)]
    exact ⟨rfl, rfl, rfl, rfl, rfl⟩

/-- A successful `Enqueue` keeps the capacity positive. -/
theorem Enqueue_true_capacity_pos {s : QState} {p : List Nat}
    (h : (Enqueue s p).1 = true) (hcap : 0 < s.header.capacity) :
    0 < (Enqueue s p).2.header.capacity := by
  by_cases h1 : s.header.size + (4 + p.length + 1) > s.header.capacity
  · by_cases h2 : s.header.capacity ≥ s.header.max_size
    · by_cases h3 : CanRecycleSpace s (4 + p.length + 1) = true
      · rw [Enqueue_recycle h1 h2 h3]
        exact hcap
      · rw [Enqueue_full h1 h2 (by simpa using h3)] at h
        exact absurd h (by simp)
    · rw [Enqueue_expand h1 h2]
      show 0 < min (s.header.capacity * 2) s.header.max_size
      omega
  · rw [Enqueue_nobranch (by omega)]
    exact hcap

/-- Projections of the no-branch enqueue, for use at concrete states. -/
theorem Enqueue_nobranch_spec {s : QState} {p : List Nat}
    (h : s.header.size + (4 + p.length + 1) ≤ s.header.capacity) :
    (Enqueue s p).1 = true ∧
    (Enqueue s p).2.header.capacity = s.header.capacity ∧
    (Enqueue s p).2.header.read_pos = s.header.read_pos ∧
    (Enqueue s p).2.header.write_pos =
      (s.header.write_pos + (4 + p.length + 1)) % s.header.capacity := by
  rw [Enqueue_nobranch h]
  exact ⟨rfl, rfl, rfl, rfl⟩

/-- The length prefix a successful enqueue stores is the payload length
truncated by the `uint32` cast. -/
theorem readU32_enqWrites (f : Mem) (wp : Nat) (p : List Nat) :
    readU32 (enqWrites f wp p) wp = p.length % 2 ^ 32 := by
  have e0 : enqWrites f wp p wp = writeU32 f wp p.length wp := by
    simp only [enqWrites]
    rw [writeByte_out (by omega), writeBytes_out (by omega)]
  have e1 : enqWrites f wp p (wp + 1) = writeU32 f wp p.length (wp + 1) := by
    simp only [enqWrites]
    rw [writeByte_out (by omega), writeBytes_out (by omega)]
  have e2 : enqWrites f wp p (wp + 2) = writeU32 f wp p.length (wp + 2) := by
    simp only [enqWrites]
    rw [writeByte_out (by omega), writeBytes_out (by omega)]
  have e3 : enqWrites f wp p (wp + 3) = writeU32 f wp p.length (wp + 3) := by
    simp only [enqWrites]
    rw [writeByte_out (by omega), writeBytes_out (by omega)]
  rw [readU32_congr e0 e1 e2 e3, readU32_writeU32]

/-- A payload returned by `Dequeue` is exactly the bytes read at
`read_pos + 4` for the stored length-prefix many bytes. -/
theorem Dequeue_ok_shape {s : QState} {q : List Nat}
    (h : (Dequeue s).1 = DQResult.ok q) :
    q = readBytes s.file (s.header.read_pos + 4)
      (readU32 s.file s.header.read_pos) := by
  by_cases h0 : s.header.count = 0
  · rw [show Dequeue s = (.empty, s) from by simp only [Dequeue, if_pos h0]]
      at h
    exact absurd h (by simp)
  · by_cases hck : s.file (s.header.read_pos + 4 +
        readU32 s.file s.header.read_pos) % 256 =
        CalculateChecksum (readBytes s.file (s.header.read_pos + 4)
          (readU32 s.file s.header.read_pos))
    · simp only [Dequeue, if_neg h0, if_pos hck] at h
      cases h
      rfl
    · simp only [Dequeue, if_neg h0, if_neg hck] at h
      exact absurd h (by simp)

/-- Header bookkeeping of a successful `Dequeue`: `read_pos` advances by
the stored frame modulo capacity with no clamp, `size` shrinks by the
frame, `count` by one; capacity and file are untouched. -/
theorem Dequeue_ok_spec {s : QState} {q : List Nat}
    (h : (Dequeue s).1 = DQResult.ok q) :
    (Dequeue s).2.header.read_pos =
      (s.header.read_pos + (4 + readU32 s.file s.header.read_pos + 1)) %
        s.header.capacity ∧
    (Dequeue s).2.header.size =
      s.header.size - (4 + readU32 s.file s.header.read_pos + 1) ∧
    (Dequeue s).2.header.count = s.header.count - 1 ∧
    (Dequeue s).2.header.capacity = s.header.capacity ∧
    (Dequeue s).2.file = s.file := by
  by_cases h0 : s.header.count = 0
  · simp only [Dequeue, if_pos h0] at h
    exact absurd h (by simp)
  · by_cases hck : s.file (s.header.read_pos + 4 +
        readU32 s.file s.header.read_pos) % 256 =
        CalculateChecksum (readBytes s.file (s.header.read_pos + 4)
          (readU32 s.file s.header.read_pos))
    · simp only [Dequeue, if_neg h0, if_pos hck]
      refine ⟨?_, ?_, ?_, ?_, ?_⟩ <;> trivial
    · simp only [Dequeue, if_neg h0, if_neg hck] at h
      exact absurd h (by simp)

/-! ### Claim theorems -/

/-- C1 (amended). For runs from a fresh queue in which every payload is
shorter than `2^32` bytes with byte values below 256, and every enqueue
fits without triggering the space branch (`size + frame ≤ capacity`) and
without wrapping the write pointer (`write_pos + frame < capacity`), the
sequence of payloads returned by `Dequeue` equals, in order and
byte-for-byte, the outputs of the reference FIFO queue — i.e. the prefix
of the enqueued payloads not yet returned.  (The unrestricted claim is
refuted by `C1_counterexample`.) -/
theorem enqueue_dequeue_fifo_flat (bs : Nat) (ops : List Op) (hbs : 0 < bs)
    (hok : flatOk (InitQueue bs) ops = true) :
    okOuts (run (InitQueue bs) ops).1 = (absStep [] ops).1 :=
  (run_refines (Inv_init hbs) hok).1

/-- The trace refuting the unrestricted FIFO claim: two small enqueues, a
dequeue, then an enqueue that overflows the (maxed-out) capacity and takes
the reclamation path, then a dequeue. -/
def cexBig : List Nat := List.replicate (2 ^ 30 - 10) 0

def cexOps : List Op :=
  [Op.enq [7], Op.enq [9], Op.deq, Op.enq cexBig, Op.deq]

def cexS0 : QState := InitQueue (2 ^ 26)

def cexS1 : QState := (Enqueue cexS0 [7]).2

def cexS2 : QState := (Enqueue cexS1 [9]).2

def cexS3 : QState := (Dequeue cexS2).2

def cexS4 : QState :=
  { cexS3 with
    file := enqWrites cexS3.file cexS3.header.write_pos cexBig,
    header := { cexS3.header with
      read_pos := cexS3.bsMember,
      write_pos := (cexS3.header.write_pos + (4 + cexBig.length + 1)) %
        cexS3.header.capacity,
      size := cexS3.header.size + (4 + cexBig.length + 1),
      count := cexS3.header.count + 1 } }

/-- C1 counterexample.  On the fresh default-geometry queue
(`block_size = 2^26`, capacity = `max_size` = `2^30`), the run
enqueue [7]; enqueue [9]; dequeue; enqueue (2^30 - 10 zero bytes); dequeue
consists solely of successful calls — every enqueue returns `true`, both
dequeues return payloads — yet the dequeues return `[7], [7]`, whereas the
FIFO prefix of the enqueued payloads is `[7], [9]`: the overflowing
enqueue resets `read_pos` onto the already consumed first record
(`CanRecycleSpace`/`UpdateReadPosition`), so the second dequeue replays the
stale record instead of `[9]`. -/
theorem C1_counterexample :
    ((Enqueue cexS0 [7]).1 = true ∧ (Enqueue cexS1 [9]).1 = true ∧
     (Dequeue cexS2).1 = DQResult.ok [7] ∧
     Enqueue cexS3 cexBig = (true, cexS4) ∧
     (Dequeue cexS4).1 = DQResult.ok [7]) ∧
    okOuts (run cexS0 cexOps).1 = [[7], [7]] ∧
    (absStep [] cexOps).1 = [[7], [9]] ∧
    ([[7], [7]] : List (List Nat)) ≠ [[7], [9]] := by
  have hlen : cexBig.length = 2 ^ 30 - 10 := List.length_replicate _ _
  have hA : (Enqueue cexS0 [7]).1 = true := by decide
  have hB : (Enqueue cexS1 [9]).1 = true := by decide
  have hC : (Dequeue cexS2).1 = DQResult.ok [7] := by decide
  have h1 : cexS3.header.size + (4 + cexBig.length + 1) >
      cexS3.header.capacity := by
    have e1 : cexS3.header.size = 6 := by decide
    have e2 : cexS3.header.capacity = 2 ^ 30 := by decide
    rw [e1, e2, hlen]
    norm_num
  have hE3 : Enqueue cexS3 cexBig = (true, cexS4) :=
    Enqueue_reclaim h1 (by decide) (by decide)
  have hwp3 : cexS3.header.write_pos = 2 ^ 26 + 12 := by decide
  have hfile4 : cexS4.file = enqWrites cexS3.file cexS3.header.write_pos
      cexBig := rfl
  have hq : ∀ q, q < 2 ^ 26 + 12 → cexS4.file q = cexS3.file q := by
    intro q hqlt
    rw [hfile4]
    simp only [enqWrites]
    rw [writeByte_out (by rw [hwp3, hlen]; omega),
      writeBytes_out (by rw [hwp3]; omega),
      writeU32_out (by rw [hwp3]; omega)]
  have f1 : ¬ cexS4.header.count = 0 := by decide
  have f2 : cexS4.header.read_pos = 2 ^ 26 := by decide
  have hr32 : readU32 cexS4.file (2 ^ 26) = 1 := by
    rw [readU32_congr (hq _ (by omega)) (hq _ (by omega)) (hq _ (by omega))
      (hq _ (by omega))]
    decide
  have hrb : readBytes cexS4.file (2 ^ 26 + 4) 1 = [7] := by
    rw [readBytes_congr (fun i hi => hq (2 ^ 26 + 4 + i) (by omega))]
    decide
  have hst : cexS4.file (2 ^ 26 + 4 + 1) % 256 = 7 := by
    rw [hq _ (by omega)]
    decide
  have hE : (Dequeue cexS4).1 = DQResult.ok [7] := by
    simp only [Dequeue, if_neg f1, f2, hr32, hrb, hst]
    rw [if_pos (by decide : (7 : Nat) = CalculateChecksum [7])]
  have houts : okOuts (run cexS0 cexOps).1 = [[7], [7]] := by
    simp only [cexOps, run]
    rw [show (Enqueue cexS0 [7]).2 = cexS1 from rfl,
      show (Enqueue cexS1 [9]).2 = cexS2 from rfl,
      show (Dequeue cexS2).2 = cexS3 from rfl, hE3,
      show ((true, cexS4) : Bool × QState).2 = cexS4 from rfl, hC, hE]
    rfl
  have habs : (absStep [] cexOps).1 = [[7], [9]] := by
    show ([7] : List Nat) :: ([9] : List Nat) :: [] = [[7], [9]]
    rfl
  exact ⟨⟨hA, hB, hC, hE3, hE⟩, houts, habs, by decide⟩

/-- Witness for `enqueue_dequeue_fifo_flat`: a concrete flat run — two
enqueues (one with embedded zero bytes and binary content) and three
dequeues — returns exactly the two enqueued payloads in order, and the
third dequeue yields nothing. -/
theorem enqueue_dequeue_fifo_flat_witness :
    0 < 2 ^ 26 ∧
    flatOk (InitQueue (2 ^ 26))
      [Op.enq [72, 101, 108, 108, 111], Op.enq [0, 255, 10, 0, 254],
       Op.deq, Op.deq, Op.deq] = true ∧
    okOuts (run (InitQueue (2 ^ 26))
      [Op.enq [72, 101, 108, 108, 111], Op.enq [0, 255, 10, 0, 254],
       Op.deq, Op.deq, Op.deq]).1 =
      (absStep []
        [Op.enq [72, 101, 108, 108, 111], Op.enq [0, 255, 10, 0, 254],
         Op.deq, Op.deq, Op.deq]).1 :=
  ⟨by decide, by decide,
    enqueue_dequeue_fifo_flat (2 ^ 26) _ (by decide) (by decide)⟩

/-- Payload driving the C2/C3 counterexamples: its frame is
`2^30 - 2^26 + 1` bytes, which exceeds `capacity - block_size` yet fits in
`capacity`, and wraps `write_pos` past the end of the file. -/
def c2big : List Nat := List.replicate (2 ^ 30 - 2 ^ 26 - 4) 0

/-- C2 counterexample.  On the fresh default-geometry queue, enqueuing a
`2^30 - 2^26 - 4` byte payload succeeds and leaves
`write_pos = (2^26 + 2^30 - 2^26 + 1) % 2^30 = 1`, strictly below
`block_size`: the source applies the bare modulo with no clamp, so the
claimed invariant `block_size <= write_pos` fails after a successful
enqueue. -/
theorem C2_counterexample :
    (Enqueue (InitQueue (2 ^ 26)) c2big).1 = true ∧
    (Enqueue (InitQueue (2 ^ 26)) c2big).2.header.write_pos = 1 ∧
    (Enqueue (InitQueue (2 ^ 26)) c2big).2.header.write_pos <
      (InitQueue (2 ^ 26)).header.block_size := by
  have hlen : c2big.length = 2 ^ 30 - 2 ^ 26 - 4 := List.length_replicate _ _
  have hfit : (InitQueue (2 ^ 26)).header.size + (4 + c2big.length + 1) ≤
      (InitQueue (2 ^ 26)).header.capacity := by
    rw [hlen]
    decide
  obtain ⟨ht, -, -, hwp⟩ := Enqueue_nobranch_spec hfit
  have hval : (Enqueue (InitQueue (2 ^ 26)) c2big).2.header.write_pos = 1 := by
    rw [hwp, hlen,
      show (InitQueue (2 ^ 26)).header.write_pos = 2 ^ 26 from by decide,
      show (InitQueue (2 ^ 26)).header.capacity = 2 ^ 30 from by decide]
    norm_num
  refine ⟨ht, hval, ?_⟩
  rw [hval]
  decide

/-- C2 (amended).  After a successful `Enqueue`, `write_pos` equals
`(old write_pos + frame) mod capacity` (the capacity current after any
expansion) with no lower clamp, and is below capacity; after a successful
`Dequeue`, `read_pos` equals `(old read_pos + frame) mod capacity`,
likewise unclamped, and is below capacity.  Neither pointer is kept out of
the header region `[0, block_size)` — see `C2_counterexample`. -/
theorem pos_update_no_clamp (s : QState) (p q : List Nat)
    (hcap : 0 < s.header.capacity) :
    ((Enqueue s p).1 = true →
      (Enqueue s p).2.header.write_pos =
        (s.header.write_pos + (4 + p.length + 1)) %
          (Enqueue s p).2.header.capacity ∧
      (Enqueue s p).2.header.write_pos < (Enqueue s p).2.header.capacity) ∧
    ((Dequeue s).1 = DQResult.ok q →
      (Dequeue s).2.header.read_pos =
        (s.header.read_pos + (4 + readU32 s.file s.header.read_pos + 1)) %
          s.header.capacity ∧
      (Dequeue s).2.header.read_pos < s.header.capacity) := by
  constructor
  · intro h
    obtain ⟨-, -, -, hwp, -⟩ := Enqueue_true_spec h
    refine ⟨hwp, ?_⟩
    rw [hwp]
    exact Nat.mod_lt _ (Enqueue_true_capacity_pos h hcap)
  · intro h
    obtain ⟨hrp, -, -, -, -⟩ := Dequeue_ok_spec h
    refine ⟨hrp, ?_⟩
    rw [hrp]
    exact Nat.mod_lt _ hcap

/-- Witness for `pos_update_no_clamp`: on the state holding one record
`[5]`, enqueuing `[3]` succeeds and dequeuing returns `[5]`, and both
pointer updates take the stated modulo form. -/
theorem pos_update_no_clamp_witness :
    0 < (Enqueue (InitQueue 4096) [5]).2.header.capacity ∧
    (Enqueue (Enqueue (InitQueue 4096) [5]).2 [3]).1 = true ∧
    (Dequeue (Enqueue (InitQueue 4096) [5]).2).1 = DQResult.ok [5] ∧
    (((Enqueue (Enqueue (InitQueue 4096) [5]).2 [3]).1 = true →
      (Enqueue (Enqueue (InitQueue 4096) [5]).2 [3]).2.header.write_pos =
        ((Enqueue (InitQueue 4096) [5]).2.header.write_pos +
          (4 + ([3] : List Nat).length + 1)) %
          (Enqueue (Enqueue (InitQueue 4096) [5]).2 [3]).2.header.capacity ∧
      (Enqueue (Enqueue (InitQueue 4096) [5]).2 [3]).2.header.write_pos <
        (Enqueue (Enqueue (InitQueue 4096) [5]).2 [3]).2.header.capacity) ∧
    ((Dequeue (Enqueue (InitQueue 4096) [5]).2).1 = DQResult.ok [5] →
      (Dequeue (Enqueue (InitQueue 4096) [5]).2).2.header.read_pos =
        ((Enqueue (InitQueue 4096) [5]).2.header.read_pos +
          (4 + readU32 (Enqueue (InitQueue 4096) [5]).2.file
            (Enqueue (InitQueue 4096) [5]).2.header.read_pos + 1)) %
          (Enqueue (InitQueue 4096) [5]).2.header.capacity ∧
      (Dequeue (Enqueue (InitQueue 4096) [5]).2).2.header.read_pos <
        (Enqueue (InitQueue 4096) [5]).2.header.capacity)) :=
  ⟨by decide, by decide, by decide,
    pos_update_no_clamp (Enqueue (InitQueue 4096) [5]).2 [3] [5] (by decide)⟩

/-- C3 counterexample.  On the fresh default-geometry queue,
`size + frame = 2^30 - 2^26 + 1` exceeds `capacity - block_size` but not
`capacity`: the source's space check (`size + frame > capacity`) does not
fire, the record is written with no growth and no reclamation, and the
call returns `true` — refuting the claimed `capacity - block_size`
threshold. -/
theorem C3_counterexample :
    (InitQueue (2 ^ 26)).header.size + (4 + c2big.length + 1) >
      (InitQueue (2 ^ 26)).header.capacity -
        (InitQueue (2 ^ 26)).header.block_size ∧
    (Enqueue (InitQueue (2 ^ 26)) c2big).1 = true ∧
    (Enqueue (InitQueue (2 ^ 26)) c2big).2.header.capacity =
      (InitQueue (2 ^ 26)).header.capacity ∧
    (Enqueue (InitQueue (2 ^ 26)) c2big).2.header.read_pos =
      (InitQueue (2 ^ 26)).header.read_pos := by
  have hlen : c2big.length = 2 ^ 30 - 2 ^ 26 - 4 := List.length_replicate _ _
  have hfit : (InitQueue (2 ^ 26)).header.size + (4 + c2big.length + 1) ≤
      (InitQueue (2 ^ 26)).header.capacity := by
    rw [hlen]
    decide
  obtain ⟨ht, hcap, hrp, -⟩ := Enqueue_nobranch_spec hfit
  refine ⟨?_, ht, hcap, hrp⟩
  rw [hlen]
  decide

/-- C3 (amended).  The out-of-space handling of `Enqueue` triggers if and
only if `size + frame > capacity` (the source compares against the full
capacity, not `capacity - block_size`).  Below that threshold the record
is written with no growth and no reclamation and the call returns `true`;
above it the engine grows the file, or resets `read_pos` to `block_size_`,
or returns `false` with the state untouched. -/
theorem space_branch_threshold (s : QState) (p : List Nat)
    (hcap : 0 < s.header.capacity) :
    (s.header.size + (4 + p.length + 1) ≤ s.header.capacity →
      (Enqueue s p).1 = true ∧
      (Enqueue s p).2.header.capacity = s.header.capacity ∧
      (Enqueue s p).2.header.read_pos = s.header.read_pos) ∧
    (s.header.size + (4 + p.length + 1) > s.header.capacity →
      ((Enqueue s p).1 = true ∧
        s.header.capacity < (Enqueue s p).2.header.capacity) ∨
      ((Enqueue s p).1 = true ∧
        (Enqueue s p).2.header.read_pos = s.bsMember) ∨
      Enqueue s p = (false, s)) := by
  constructor
  · intro h
    rw [Enqueue_nobranch h]
    exact ⟨rfl, rfl, rfl⟩
  · intro h
    by_cases h2 : s.header.capacity ≥ s.header.max_size
    · by_cases h3 : CanRecycleSpace s (4 + p.length + 1) = true
      · right
        left
        rw [Enqueue_recycle h h2 h3]
        exact ⟨rfl, rfl⟩
      · right
        right
        exact Enqueue_full h h2 (by simpa using h3)
    · left
      rw [Enqueue_expand h h2]
      refine ⟨rfl, ?_⟩
      show s.header.capacity < min (s.header.capacity * 2) s.header.max_size
      omega


/-- Witness for `space_branch_threshold`: on a fresh queue a 5-byte
payload is below the threshold, so the enqueue writes, returns `true`,
and changes neither capacity nor `read_pos`. -/
theorem space_branch_threshold_witness :
    0 < (InitQueue 4096).header.capacity ∧
    (InitQueue 4096).header.size + (4 + ([5, 6, 7, 8, 9] : List Nat).length + 1) ≤
      (InitQueue 4096).header.capacity ∧
    (((InitQueue 4096).header.size + (4 + ([5, 6, 7, 8, 9] : List Nat).length + 1) ≤
        (InitQueue 4096).header.capacity →
      (Enqueue (InitQueue 4096) [5, 6, 7, 8, 9]).1 = true ∧
      (Enqueue (InitQueue 4096) [5, 6, 7, 8, 9]).2.header.capacity =
        (InitQueue 4096).header.capacity ∧
      (Enqueue (InitQueue 4096) [5, 6, 7, 8, 9]).2.header.read_pos =
        (InitQueue 4096).header.read_pos) ∧
    ((InitQueue 4096).header.size + (4 + ([5, 6, 7, 8, 9] : List Nat).length + 1) >
        (InitQueue 4096).header.capacity →
      ((Enqueue (InitQueue 4096) [5, 6, 7, 8, 9]).1 = true ∧
        (InitQueue 4096).header.capacity <
          (Enqueue (InitQueue 4096) [5, 6, 7, 8, 9]).2.header.capacity) ∨
      ((Enqueue (InitQueue 4096) [5, 6, 7, 8, 9]).1 = true ∧
        (Enqueue (InitQueue 4096) [5, 6, 7, 8, 9]).2.header.read_pos =
          (InitQueue 4096).bsMember) ∨
      Enqueue (InitQueue 4096) [5, 6, 7, 8, 9] = (false, InitQueue 4096))) :=
  ⟨by decide, by decide,
    space_branch_threshold (InitQueue 4096) [5, 6, 7, 8, 9] (by decide)⟩

/-- A state whose record at `read_pos` has a corrupted checksum byte:
the stored byte at offset `read_pos + 4` (the checksum slot of the
zero-length record) is 5, while the recomputed checksum of the empty
payload is 0. -/
def c6state : QState :=
  { header := { head := 4096, tail := 4096, capacity := 2 ^ 30, size := 6,
                count := 1, block_size := 4096, max_size := 2 ^ 30,
                write_pos := 4102, read_pos := 4096, magic := MAGIC_NUMBER,
                version := 1, checksum := 0 },
    file := fun q => if q = 4100 then 5 else 0,
    bsMember := 4096 }

/-- C6.  If the stored per-record checksum does not match the checksum
recomputed over the copied payload, `Dequeue` raises `CorruptRecord` (the
`corrupt` result, the source's thrown exception) and the engine state is
exactly as before: `read_pos`, `size` and `count` are unchanged (the whole
state is unchanged, since the source throws before mutating the header). -/
theorem dequeue_corrupt_unchanged (s : QState)
    (h : (Dequeue s).1 = DQResult.corrupt) :
    (Dequeue s).2 = s ∧
    (Dequeue s).2.header.read_pos = s.header.read_pos ∧
    (Dequeue s).2.header.size = s.header.size ∧
    (Dequeue s).2.header.count = s.header.count := by
  have hunch : (Dequeue s).2 = s := by
    by_cases h0 : s.header.count = 0
    · simp only [Dequeue, if_pos h0]
    · by_cases hck : s.file (s.header.read_pos + 4 +
          readU32 s.file s.header.read_pos) % 256 =
          CalculateChecksum (readBytes s.file (s.header.read_pos + 4)
            (readU32 s.file s.header.read_pos))
      · simp only [Dequeue, if_neg h0, if_pos hck] at h
        exact absurd h (by simp)
      · simp only [Dequeue, if_neg h0, if_neg hck]
  exact ⟨hunch, by rw [hunch], by rw [hunch], by rw [hunch]⟩

/-- Witness for `dequeue_corrupt_unchanged`: on `c6state` the dequeue
reports corruption and returns the state unchanged. -/
theorem dequeue_corrupt_unchanged_witness :
    (Dequeue c6state).1 = DQResult.corrupt ∧
    ((Dequeue c6state).2 = c6state ∧
     (Dequeue c6state).2.header.read_pos = c6state.header.read_pos ∧
     (Dequeue c6state).2.header.size = c6state.header.size ∧
     (Dequeue c6state).2.header.count = c6state.header.count) :=
  ⟨by decide, dequeue_corrupt_unchanged c6state (by decide)⟩

/-- C8.  `Dequeue` returns `empty` (`std::nullopt`) if and only if
`count = 0`, and in that case the state is unchanged; a freshly created
queue file has `count() = 0`, `empty() = true`, and its dequeue yields
`empty` with the state unchanged. -/
theorem dequeue_empty_iff (s : QState) (bs : Nat) :
    ((Dequeue s).1 = DQResult.empty ↔ s.header.count = 0) ∧
    (s.header.count = 0 → (Dequeue s).2 = s) ∧
    SizeQ (InitQueue bs) = 0 ∧ EmptyQ (InitQueue bs) = true ∧
    Dequeue (InitQueue bs) = (DQResult.empty, InitQueue bs) := by
  refine ⟨⟨?_, ?_⟩, ?_, rfl, rfl, ?_⟩
  · intro h
    by_contra h0
    by_cases hck : s.file (s.header.read_pos + 4 +
        readU32 s.file s.header.read_pos) % 256 =
        CalculateChecksum (readBytes s.file (s.header.read_pos + 4)
          (readU32 s.file s.header.read_pos))
    · simp only [Dequeue, if_neg h0, if_pos hck] at h
      exact absurd h (by simp)
    · simp only [Dequeue, if_neg h0, if_neg hck] at h
      exact absurd h (by simp)
  · intro h0
    simp only [Dequeue, if_pos h0]
  · intro h0
    simp only [Dequeue, if_pos h0]
  · simp only [Dequeue,
      if_pos (show (InitQueue bs).header.count = 0 from rfl)]

/-- Witness for `dequeue_empty_iff` on the fresh 4096-block-size queue. -/
theorem dequeue_empty_iff_witness :
    (Dequeue (InitQueue 4096)).2 = InitQueue 4096 ∧
    (Dequeue (InitQueue 4096)).1 = DQResult.empty :=
  ⟨(dequeue_empty_iff (InitQueue 4096) 4096).2.1 (by decide),
   ((dequeue_empty_iff (InitQueue 4096) 4096).1).mpr (by decide)⟩

/-- A state at `max_size` with 4 free bytes, nothing drained at the front
and no wrapped gap: any enqueue must fail. -/
def c10state : QState :=
  { header := { head := 2 ^ 26, tail := 2 ^ 26, capacity := 2 ^ 30,
                size := 2 ^ 30 - 4, count := 7, block_size := 2 ^ 26,
                max_size := 2 ^ 30, write_pos := 2 ^ 26, read_pos := 2 ^ 26,
                magic := MAGIC_NUMBER, version := 1, checksum := 0 },
    file := fun _ => 0,
    bsMember := 2 ^ 26 }

/-- C10.  Whenever `Enqueue` returns `false` (`QueueFull`), the state is
returned exactly as it was — header fields and file bytes untouched — and
the failing path is precisely the one where `size + frame > capacity`,
`capacity` has reached `max_size`, and `CanRecycleSpace` reports no
reclaimable space. -/
theorem enqueue_false_unchanged (s : QState) (p : List Nat)
    (h : (Enqueue s p).1 = false) :
    (Enqueue s p).2 = s ∧
    s.header.size + (4 + p.length + 1) > s.header.capacity ∧
    s.header.capacity ≥ s.header.max_size ∧
    CanRecycleSpace s (4 + p.length + 1) = false := by
  by_cases h1 : s.header.size + (4 + p.length + 1) > s.header.capacity
  · by_cases h2 : s.header.capacity ≥ s.header.max_size
    · by_cases h3 : CanRecycleSpace s (4 + p.length + 1) = true
      · rw [Enqueue_recycle h1 h2 h3] at h
        exact absurd h (by simp)
      · have h3' : CanRecycleSpace s (4 + p.length + 1) = false := by
          simpa using h3
        rw [Enqueue_full h1 h2 h3']
        exact ⟨rfl, h1, h2, h3'⟩
    · rw [Enqueue_expand h1 h2] at h
      exact absurd h (by simp)
  · rw [Enqueue_nobranch (by omega)] at h
    exact absurd h (by simp)

/-- Witness for `enqueue_false_unchanged`: on `c10state` a 1-byte enqueue
returns `false` and everything is unchanged. -/
theorem enqueue_false_unchanged_witness :
    (Enqueue c10state [1]).1 = false ∧
    ((Enqueue c10state [1]).2 = c10state ∧
     c10state.header.size + (4 + ([1] : List Nat).length + 1) >
       c10state.header.capacity ∧
     c10state.header.capacity ≥ c10state.header.max_size ∧
     CanRecycleSpace c10state (4 + ([1] : List Nat).length + 1) = false) :=
  ⟨by decide, enqueue_false_unchanged c10state [1] (by decide)⟩


/-- A header that passes every check `RecoverFromFile` makes, while
violating five of the claimed section-3 invariants: `read_pos` inside the
header region, `capacity` above `max_size`, `block_size` not dividing
`capacity`, and `count != 0` with `size = 0`. -/
def c5state : QState :=
  { header := { head := 4096, tail := 4096, capacity := 2 ^ 30 + 1,
                size := 0, count := 5, block_size := 4096,
                max_size := 2 ^ 30, write_pos := 4096, read_pos := 0,
                magic := MAGIC_NUMBER, version := 1, checksum := 0 },
    file := fun _ => 0,
    bsMember := 4096 }

/-- C5 counterexample.  `RecoverFromFile` accepts `c5state` (returns ok, so
the engine opens) even though `read_pos < block_size`,
`capacity > max_size`, `block_size` does not divide `capacity`, and
`count == 0 iff size == 0` is violated: the source checks only magic,
version, block-size match, `size <= capacity` and both positions
`< capacity`, not the full section-3 invariants the claim lists. -/
theorem C5_counterexample :
    RecoverFromFile c5state = Except.ok () ∧
    c5state.header.read_pos < c5state.header.block_size ∧
    c5state.header.capacity > c5state.header.max_size ∧
    c5state.header.capacity % c5state.header.block_size ≠ 0 ∧
    c5state.header.count ≠ 0 ∧ c5state.header.size = 0 :=
  ⟨by decide, by decide, by decide, by decide, by decide, by decide⟩

/-- `RecoverFromFile` succeeds exactly when its six checks and the
data-integrity walk pass. -/
theorem RecoverFromFile_ok_iff (s : QState) :
    RecoverFromFile s = Except.ok () ↔
      (s.header.magic = MAGIC_NUMBER ∧ s.header.version = CURRENT_VERSION ∧
       s.header.block_size = s.bsMember ∧ s.header.size ≤ s.header.capacity ∧
       s.header.read_pos < s.header.capacity ∧
       s.header.write_pos < s.header.capacity ∧
       VerifyDataIntegrity s.file s.header.capacity s.header.read_pos
         s.header.size = Except.ok ()) := by
  unfold RecoverFromFile
  split_ifs with h1 h2 h3 h4 h5
  · exact ⟨fun h => absurd h (by simp), fun h => absurd h.1 h1⟩
  · exact ⟨fun h => absurd h (by simp), fun h => absurd h.2.1 h2⟩
  · exact ⟨fun h => absurd h (by simp), fun h => absurd h.2.2.1 h3⟩
  · exact ⟨fun h => absurd h (by simp),
      fun h => absurd h.2.2.2.1 (by omega)⟩
  · refine ⟨fun h => absurd h (by simp), fun h => ?_⟩
    rcases h5 with h5 | h5
    · exact absurd h.2.2.2.2.1 (by omega)
    · exact absurd h.2.2.2.2.2.1 (by omega)
  · constructor
    · intro h
      obtain ⟨hr, hw⟩ := not_or.mp h5
      exact ⟨not_not.mp h1, not_not.mp h2, not_not.mp h3, by omega,
        by omega, by omega, h⟩
    · intro h
      exact h.2.2.2.2.2.2

/-- C5 (amended).  Opening an existing file validates exactly: magic,
version, that the stored `block_size` matches the configured one,
`size <= capacity`, `read_pos < capacity` and `write_pos < capacity` —
followed by the data-integrity walk.  The remaining section-3 invariants
(`block_size <= read_pos`, `block_size <= write_pos`,
`size <= capacity - block_size`, `count == 0 iff size == 0`,
`block_size` divides `capacity`, `capacity <= max_size`) are not checked;
violating them does not raise `CorruptHeader` (see `C5_counterexample`). -/
theorem recover_validation_iff (s : QState) :
    RecoverFromFile s = Except.ok () ↔
      (s.header.magic = MAGIC_NUMBER ∧ s.header.version = CURRENT_VERSION ∧
       s.header.block_size = s.bsMember ∧ s.header.size ≤ s.header.capacity ∧
       s.header.read_pos < s.header.capacity ∧
       s.header.write_pos < s.header.capacity ∧
       VerifyDataIntegrity s.file s.header.capacity s.header.read_pos
         s.header.size = Except.ok ()) :=
  RecoverFromFile_ok_iff s

theorem readU64at_here (v : Nat) (rest : List Nat) :
    readU64at (u64le v ++ rest) 0 = v % 2 ^ 64 := by
  show v % 256 + v / 2 ^ 8 % 256 * 2 ^ 8 + v / 2 ^ 16 % 256 * 2 ^ 16 +
    v / 2 ^ 24 % 256 * 2 ^ 24 + v / 2 ^ 32 % 256 * 2 ^ 32 +
    v / 2 ^ 40 % 256 * 2 ^ 40 + v / 2 ^ 48 % 256 * 2 ^ 48 +
    v / 2 ^ 56 % 256 * 2 ^ 56 = v % 2 ^ 64
  omega

theorem readU64at_peel (v : Nat) (rest : List Nat) (k : Nat) :
    readU64at (u64le v ++ rest) (k + 8) = readU64at rest k := rfl

/-- `headerBytes` as a fully right-nested chain, for offset peeling. -/
theorem headerBytes_shape (h : QueueHeader) :
    headerBytes h = u64le h.head ++ (u64le h.tail ++ (u64le h.capacity ++
      (u64le h.size ++ (u64le h.count ++ (u64le h.block_size ++
      (u64le h.max_size ++ (u64le h.write_pos ++ (u64le h.read_pos ++
      (u64le h.magic ++ (u64le h.version ++ [h.checksum % 256])))))))))) := by
  simp [headerBytes, headerFieldBytes, List.append_assoc]

/-- C7 counterexample.  On the freshly initialized header the magic field
holds `0xDEADBEEFCAFEBABE`, yet the `uint64` at byte offset 0 of the
serialized header is `head = block_size = 2^26`, not the magic: the
struct packs `head` first and `magic` only at offset 72. -/
theorem C7_counterexample :
    (InitQueue (2 ^ 26)).header.magic = MAGIC_NUMBER ∧
    readU64at (headerBytes (InitQueue (2 ^ 26)).header) 0 = 2 ^ 26 ∧
    readU64at (headerBytes (InitQueue (2 ^ 26)).header) 0 ≠ MAGIC_NUMBER :=
  ⟨by decide, by decide, by decide⟩

set_option maxRecDepth 8192 in
/-- C7 (amended).  The on-disk header is packed sequentially in the struct
declaration order `head, tail, capacity, size, count, block_size,
max_size, write_pos, read_pos, magic, version, checksum`: the `uint64`
fields sit at byte offsets 0, 8, ..., 80 — `magic` at offset 72, not 0 —
and the 1-byte checksum is last, at offset 88; at initialization it
equals the sum mod 256 of all preceding header bytes. -/
theorem header_layout_actual (h : QueueHeader) (bs : Nat) :
    (headerBytes h).length = 89 ∧
    readU64at (headerBytes h) 0 = h.head % 2 ^ 64 ∧
    readU64at (headerBytes h) 8 = h.tail % 2 ^ 64 ∧
    readU64at (headerBytes h) 16 = h.capacity % 2 ^ 64 ∧
    readU64at (headerBytes h) 24 = h.size % 2 ^ 64 ∧
    readU64at (headerBytes h) 32 = h.count % 2 ^ 64 ∧
    readU64at (headerBytes h) 40 = h.block_size % 2 ^ 64 ∧
    readU64at (headerBytes h) 48 = h.max_size % 2 ^ 64 ∧
    readU64at (headerBytes h) 56 = h.write_pos % 2 ^ 64 ∧
    readU64at (headerBytes h) 64 = h.read_pos % 2 ^ 64 ∧
    readU64at (headerBytes h) 72 = h.magic % 2 ^ 64 ∧
    readU64at (headerBytes h) 80 = h.version % 2 ^ 64 ∧
    (headerBytes h).getD 88 0 = h.checksum % 256 ∧
    (InitQueue bs).header.checksum =
      CalculateChecksum ((headerBytes (InitQueue bs).header).take 88) := by
  refine ⟨rfl, ?_, ?_, ?_, ?_, ?_, ?_, ?_, ?_, ?_, ?_, ?_, rfl, rfl⟩
  · rw [headerBytes_shape, readU64at_here]
  · rw [headerBytes_shape, show (8 : Nat) = 0 + 8 from by norm_num,
      readU64at_peel, readU64at_here]
  · rw [headerBytes_shape, show (16 : Nat) = 8 + 8 from by norm_num,
      readU64at_peel, show (8 : Nat) = 0 + 8 from by norm_num,
      readU64at_peel, readU64at_here]
  · rw [headerBytes_shape, show (24 : Nat) = 16 + 8 from by norm_num,
      readU64at_peel, show (16 : Nat) = 8 + 8 from by norm_num,
      readU64at_peel, show (8 : Nat) = 0 + 8 from by norm_num,
      readU64at_peel, readU64at_here]
  · rw [headerBytes_shape, show (32 : Nat) = 24 + 8 from by norm_num,
      readU64at_peel, show (24 : Nat) = 16 + 8 from by norm_num,
      readU64at_peel, show (16 : Nat) = 8 + 8 from by norm_num,
      readU64at_peel, show (8 : Nat) = 0 + 8 from by norm_num,
      readU64at_peel, readU64at_here]
  · rw [headerBytes_shape, show (40 : Nat) = 32 + 8 from by norm_num,
      readU64at_peel, show (32 : Nat) = 24 + 8 from by norm_num,
      readU64at_peel, show (24 : Nat) = 16 + 8 from by norm_num,
      readU64at_peel, show (16 : Nat) = 8 + 8 from by norm_num,
      readU64at_peel, show (8 : Nat) = 0 + 8 from by norm_num,
      readU64at_peel, readU64at_here]
  · rw [headerBytes_shape, show (48 : Nat) = 40 + 8 from by norm_num,
      readU64at_peel, show (40 : Nat) = 32 + 8 from by norm_num,
      readU64at_peel, show (32 : Nat) = 24 + 8 from by norm_num,
      readU64at_peel, show (24 : Nat) = 16 + 8 from by norm_num,
      readU64at_peel, show (16 : Nat) = 8 + 8 from by norm_num,
      readU64at_peel, show (8 : Nat) = 0 + 8 from by norm_num,
      readU64at_peel, readU64at_here]
  · rw [headerBytes_shape, show (56 : Nat) = 48 + 8 from by norm_num,
      readU64at_peel, show (48 : Nat) = 40 + 8 from by norm_num,
      readU64at_peel, show (40 : Nat) = 32 + 8 from by norm_num,
      readU64at_peel, show (32 : Nat) = 24 + 8 from by norm_num,
      readU64at_peel, show (24 : Nat) = 16 + 8 from by norm_num,
      readU64at_peel, show (16 : Nat) = 8 + 8 from by norm_num,
      readU64at_peel, show (8 : Nat) = 0 + 8 from by norm_num,
      readU64at_peel, readU64at_here]
  · rw [headerBytes_shape, show (64 : Nat) = 56 + 8 from by norm_num,
      readU64at_peel, show (56 : Nat) = 48 + 8 from by norm_num,
      readU64at_peel, show (48 : Nat) = 40 + 8 from by norm_num,
      readU64at_peel, show (40 : Nat) = 32 + 8 from by norm_num,
      readU64at_peel, show (32 : Nat) = 24 + 8 from by norm_num,
      readU64at_peel, show (24 : Nat) = 16 + 8 from by norm_num,
      readU64at_peel, show (16 : Nat) = 8 + 8 from by norm_num,
      readU64at_peel, show (8 : Nat) = 0 + 8 from by norm_num,
      readU64at_peel, readU64at_here]
  · rw [headerBytes_shape, show (72 : Nat) = 64 + 8 from by norm_num,
      readU64at_peel, show (64 : Nat) = 56 + 8 from by norm_num,
      readU64at_peel, show (56 : Nat) = 48 + 8 from by norm_num,
      readU64at_peel, show (48 : Nat) = 40 + 8 from by norm_num,
      readU64at_peel, show (40 : Nat) = 32 + 8 from by norm_num,
      readU64at_peel, show (32 : Nat) = 24 + 8 from by norm_num,
      readU64at_peel, show (24 : Nat) = 16 + 8 from by norm_num,
      readU64at_peel, show (16 : Nat) = 8 + 8 from by norm_num,
      readU64at_peel, show (8 : Nat) = 0 + 8 from by norm_num,
      readU64at_peel, readU64at_here]
  · rw [headerBytes_shape, show (80 : Nat) = 72 + 8 from by norm_num,
      readU64at_peel, show (72 : Nat) = 64 + 8 from by norm_num,
      readU64at_peel, show (64 : Nat) = 56 + 8 from by norm_num,
      readU64at_peel, show (56 : Nat) = 48 + 8 from by norm_num,
      readU64at_peel, show (48 : Nat) = 40 + 8 from by norm_num,
      readU64at_peel, show (40 : Nat) = 32 + 8 from by norm_num,
      readU64at_peel, show (32 : Nat) = 24 + 8 from by norm_num,
      readU64at_peel, show (24 : Nat) = 16 + 8 from by norm_num,
      readU64at_peel, show (16 : Nat) = 8 + 8 from by norm_num,
      readU64at_peel, show (8 : Nat) = 0 + 8 from by norm_num,
      readU64at_peel, readU64at_here]


/-- Modelled directly from the spec sentence for the recovery walk:
"walk forward from `read_pos` for `size` bytes: for each record, read
`length`; verify `4 + length + 1 <= remaining`; verify stored checksum ==
recomputed checksum over the payload; advance by the frame size modulo
the region". -/
def SpecWalkOk (f : Mem) (cap : Nat) (pos remaining : Nat) : Prop :=
  if h : remaining = 0 then True
  else
    let len := readU32 f pos
    4 + len + 1 ≤ remaining ∧
    f (pos + 4 + len) % 256 = CalculateChecksum (readBytes f (pos + 4) len) ∧
    SpecWalkOk f cap ((pos + (4 + len + 1)) % cap) (remaining - (4 + len + 1))
termination_by remaining
decreasing_by omega

theorem verifyGo_ok_iff (f : Mem) (cap : Nat) :
    ∀ fuel pos remaining, remaining ≤ fuel →
      (verifyGo f cap fuel pos remaining = Except.ok () ↔
        SpecWalkOk f cap pos remaining) := by
  intro fuel
  induction fuel with
  | zero =>
    intro pos remaining hle
    have h0 : remaining = 0 := by omega
    subst h0
    rw [SpecWalkOk]
    simp [verifyGo]
  | succ fuel ih =>
    intro pos remaining hle
    cases remaining with
    | zero =>
      rw [SpecWalkOk]
      simp [verifyGo]
    | succ r =>
      rw [SpecWalkOk, dif_neg (Nat.succ_ne_zero r)]
      simp only [verifyGo]
      by_cases hsz : 4 + readU32 f pos + 1 > r + 1
      · rw [if_pos hsz]
        constructor
        · intro h
          exact absurd h (by simp)
        · intro h
          exact absurd h.1 (by omega)
      · rw [if_neg hsz]
        by_cases hck : f (pos + 4 + readU32 f pos) % 256 =
            CalculateChecksum (readBytes f (pos + 4) (readU32 f pos))
        · rw [if_pos hck]
          rw [ih ((pos + (4 + readU32 f pos + 1)) % cap)
            (r + 1 - (4 + readU32 f pos + 1)) (by omega)]
          constructor
          · intro h
            exact ⟨by omega, hck, h⟩
          · intro h
            exact h.2.2
        · rw [if_neg hck]
          constructor
          · intro h
            exact absurd h (by simp)
          · intro h
            exact absurd h.2.1 hck

theorem verifyGo_error_class (f : Mem) (cap : Nat) :
    ∀ fuel pos remaining e,
      verifyGo f cap fuel pos remaining = Except.error e →
      e = QErr.badRecordSize ∨ e = QErr.badRecordChecksum := by
  intro fuel
  induction fuel with
  | zero =>
    intro pos remaining e h
    cases remaining with
    | zero => exact absurd h (by simp [verifyGo])
    | succ r =>
      simp only [verifyGo] at h
      cases h
      exact Or.inl rfl
  | succ fuel ih =>
    intro pos remaining e h
    cases remaining with
    | zero => exact absurd h (by simp [verifyGo])
    | succ r =>
      simp only [verifyGo] at h
      by_cases hsz : 4 + readU32 f pos + 1 > r + 1
      · rw [if_pos hsz] at h
        cases h
        exact Or.inl rfl
      · rw [if_neg hsz] at h
        by_cases hck : f (pos + 4 + readU32 f pos) % 256 =
            CalculateChecksum (readBytes f (pos + 4) (readU32 f pos))
        · rw [if_pos hck] at h
          exact ih _ _ _ h
        · rw [if_neg hck] at h
          cases h
          exact Or.inr rfl

/-- C4.  When an existing non-empty file is opened, the recovery walk is
the spec's walk: `VerifyDataIntegrity` accepts exactly when, starting at
`read_pos` and consuming `size` bytes, every record satisfies
`4 + length + 1 <= remaining` and its stored checksum equals the checksum
recomputed over its payload, advancing `(pos + frame) mod capacity`; and
whenever the walk fails, the error is one of the two `CorruptRecord`
conditions and `RecoverFromFile` refuses to open the file. -/
theorem recovery_walk_c4 (s : QState) (hsz : 0 < s.header.size) :
    (VerifyDataIntegrity s.file s.header.capacity s.header.read_pos
        s.header.size = Except.ok () ↔
      SpecWalkOk s.file s.header.capacity s.header.read_pos
        s.header.size) ∧
    (∀ e, VerifyDataIntegrity s.file s.header.capacity s.header.read_pos
        s.header.size = Except.error e →
      (e = QErr.badRecordSize ∨ e = QErr.badRecordChecksum) ∧
      RecoverFromFile s ≠ Except.ok ()) := by
  constructor
  · exact verifyGo_ok_iff s.file s.header.capacity s.header.size
      s.header.read_pos s.header.size (le_refl _)
  · intro e he
    refine ⟨verifyGo_error_class s.file s.header.capacity s.header.size
      s.header.read_pos s.header.size e he, ?_⟩
    intro hok
    have hconj := (RecoverFromFile_ok_iff s).mp hok
    have he' : verifyGo s.file s.header.capacity s.header.size
        s.header.read_pos s.header.size = Except.error e := he
    exact absurd (he'.symm.trans hconj.2.2.2.2.2.2) (by simp)

/-- Witness for `recovery_walk_c4`: the state holding the single record
`[7]` has `size = 6 > 0`, its walk verifies, and the equivalence holds. -/
theorem recovery_walk_c4_witness :
    0 < (Enqueue (InitQueue 4096) [7]).2.header.size ∧
    ((VerifyDataIntegrity (Enqueue (InitQueue 4096) [7]).2.file
        (Enqueue (InitQueue 4096) [7]).2.header.capacity
        (Enqueue (InitQueue 4096) [7]).2.header.read_pos
        (Enqueue (InitQueue 4096) [7]).2.header.size = Except.ok () ↔
      SpecWalkOk (Enqueue (InitQueue 4096) [7]).2.file
        (Enqueue (InitQueue 4096) [7]).2.header.capacity
        (Enqueue (InitQueue 4096) [7]).2.header.read_pos
        (Enqueue (InitQueue 4096) [7]).2.header.size) ∧
    (∀ e, VerifyDataIntegrity (Enqueue (InitQueue 4096) [7]).2.file
        (Enqueue (InitQueue 4096) [7]).2.header.capacity
        (Enqueue (InitQueue 4096) [7]).2.header.read_pos
        (Enqueue (InitQueue 4096) [7]).2.header.size = Except.error e →
      (e = QErr.badRecordSize ∨ e = QErr.badRecordChecksum) ∧
      RecoverFromFile (Enqueue (InitQueue 4096) [7]).2 ≠ Except.ok ())) :=
  ⟨by decide, recovery_walk_c4 (Enqueue (InitQueue 4096) [7]).2 (by decide)⟩


/-- C9.  For a payload of `2^32` or more bytes, a successful `Enqueue`
stores a length prefix equal to `length mod 2^32` (the `uint32` cast)
while advancing `size` and `write_pos` by the full `4 + length + 1`
bytes; the truncated prefix never equals the true length, and when the
next dequeue reads this record (its `read_pos` at the record's start),
any payload it successfully returns has the truncated length and is not
the enqueued payload. -/
theorem enqueue_u32_truncation (s : QState) (p : List Nat)
    (hlen : 2 ^ 32 ≤ p.length) (henq : (Enqueue s p).1 = true) :
    readU32 (Enqueue s p).2.file s.header.write_pos = p.length % 2 ^ 32 ∧
    (Enqueue s p).2.header.size = s.header.size + (4 + p.length + 1) ∧
    (Enqueue s p).2.header.write_pos =
      (s.header.write_pos + (4 + p.length + 1)) %
        (Enqueue s p).2.header.capacity ∧
    p.length % 2 ^ 32 ≠ p.length ∧
    ((Enqueue s p).2.header.read_pos = s.header.write_pos →
      ∀ q, (Dequeue (Enqueue s p).2).1 = DQResult.ok q →
        q.length = p.length % 2 ^ 32 ∧ q ≠ p) := by
  obtain ⟨hfile, hsize, -, hwp, -⟩ := Enqueue_true_spec henq
  have hmod : p.length % 2 ^ 32 < 2 ^ 32 :=
    Nat.mod_lt _ (by norm_num)
  refine ⟨?_, hsize, hwp, by omega, ?_⟩
  · rw [hfile, readU32_enqWrites]
  · intro hrp q hq
    have hshape := Dequeue_ok_shape hq
    rw [hrp, hfile, readU32_enqWrites] at hshape
    have hql : q.length = p.length % 2 ^ 32 := by
      rw [hshape, readBytes_length]
    refine ⟨hql, ?_⟩
    intro hqp
    rw [hqp] at hql
    omega

/-- Payload of exactly `2^32` zero bytes, and the geometry that lets the
engine accept it: with `block_size = 2^26 + 1` the initial capacity is
`15 * (2^26 + 1) < max_size`, so the oversized enqueue takes the
expansion path and returns `true`. -/
def c9big : List Nat := List.replicate (2 ^ 32) 0

def c9s : QState := InitQueue (2 ^ 26 + 1)

def c9after : QState :=
  { c9s with
    file := enqWrites c9s.file c9s.header.write_pos c9big,
    header := { c9s.header with
      capacity := min (c9s.header.capacity * 2) c9s.header.max_size,
      write_pos := (c9s.header.write_pos + (4 + c9big.length + 1)) %
        min (c9s.header.capacity * 2) c9s.header.max_size,
      size := c9s.header.size + (4 + c9big.length + 1),
      count := c9s.header.count + 1 } }

/-- Witness for `enqueue_u32_truncation`: enqueuing the `2^32` zero bytes
succeeds (via file expansion), the stored prefix is `2^32 % 2^32 = 0`,
and the following dequeue returns the empty payload rather than the
enqueued one. -/
theorem enqueue_u32_truncation_witness :
    2 ^ 32 ≤ c9big.length ∧
    (Enqueue c9s c9big).1 = true ∧
    (Enqueue c9s c9big).2.header.read_pos = c9s.header.write_pos ∧
    (Dequeue (Enqueue c9s c9big).2).1 = DQResult.ok [] ∧
    (readU32 (Enqueue c9s c9big).2.file c9s.header.write_pos =
        c9big.length % 2 ^ 32 ∧
      (Enqueue c9s c9big).2.header.size =
        c9s.header.size + (4 + c9big.length + 1) ∧
      (Enqueue c9s c9big).2.header.write_pos =
        (c9s.header.write_pos + (4 + c9big.length + 1)) %
          (Enqueue c9s c9big).2.header.capacity ∧
      c9big.length % 2 ^ 32 ≠ c9big.length ∧
      ((Enqueue c9s c9big).2.header.read_pos = c9s.header.write_pos →
        ∀ q, (Dequeue (Enqueue c9s c9big).2).1 = DQResult.ok q →
          q.length = c9big.length % 2 ^ 32 ∧ q ≠ c9big)) := by
  have hlen9 : c9big.length = 2 ^ 32 := List.length_replicate _ _
  have hge : 2 ^ 32 ≤ c9big.length := by
    rw [hlen9]
  have h1 : c9s.header.size + (4 + c9big.length + 1) >
      c9s.header.capacity := by
    have e1 : c9s.header.size = 0 := by decide
    have e2 : c9s.header.capacity = 15 * (2 ^ 26 + 1) := by decide
    rw [e1, e2, hlen9]
    norm_num
  have h2 : ¬ c9s.header.capacity ≥ c9s.header.max_size := by decide
  have hE9 : Enqueue c9s c9big = (true, c9after) := Enqueue_expand h1 h2
  have henq9 : (Enqueue c9s c9big).1 = true := by
    rw [hE9]
  have hrp9 : (Enqueue c9s c9big).2.header.read_pos =
      c9s.header.write_pos := by
    rw [hE9]
    decide
  have hwpv : c9s.header.write_pos = 2 ^ 26 + 1 := by decide
  have hfl : c9after.file = enqWrites c9s.file c9s.header.write_pos
      c9big := rfl
  have hcnt : ¬ c9after.header.count = 0 := by decide
  have hrp : c9after.header.read_pos = 2 ^ 26 + 1 := by decide
  have hr32 : readU32 c9after.file (2 ^ 26 + 1) = 0 := by
    rw [hfl, ← hwpv, readU32_enqWrites, hlen9]
    norm_num
  have hstored : c9after.file (2 ^ 26 + 1 + 4 + 0) % 256 = 0 := by
    rw [hfl, enqWrites_def]
    have hpos : (2 ^ 26 + 1 + 4 + 0 : Nat) = c9s.header.write_pos + 4 + 0 := by
      rw [hwpv]
    rw [hpos, writeByte_out (by rw [hwpv, hlen9]; omega)]
    have hin := @writeBytes_in
      (writeU32 c9s.file c9s.header.write_pos c9big.length)
      (c9s.header.write_pos + 4) c9big 0 (by rw [hlen9]; norm_num)
    rw [hin]
    have hgd : c9big.getD 0 0 = 0 := rfl
    rw [hgd]
  have hdata : readBytes c9after.file (2 ^ 26 + 1 + 4) 0 = [] := rfl
  have hdq : (Dequeue (Enqueue c9s c9big).2).1 = DQResult.ok [] := by
    rw [hE9]
    show (Dequeue c9after).1 = DQResult.ok []
    simp only [Dequeue, if_neg hcnt, hrp, hr32, hdata, hstored]
    rw [if_pos (by decide : (0 : Nat) = CalculateChecksum [])]
  exact ⟨hge, henq9, hrp9, hdq,
    enqueue_u32_truncation c9s c9big hge henq9⟩

end PFQ
